import Mathlib

/-!
Verification of the cabinet build pipeline (`src/cabinet/build.py`).

The script is shallowly embedded: every function of the source file is
translated to a pure Lean function over explicit inputs.  File-system
reads become function parameters (the tree of dossier directories and
markdown files), the external converter becomes a function argument
from the command line to an exit code / stdout / stderr triple, and
file-system writes are collected in a list of (path, contents) pairs.

Strings are modeled by Lean `String` and manipulated through their
underlying `List Char`; Python string ordering (code-point
lexicographic) and the Python string methods used by the script
(`strip`, `lower`, `upper`, `title`, `replace`, `split`, `join`,
`str.startswith`-style matching) are defined below on `List Char`.
Unicode-specific behavior beyond ASCII (e.g. exotic whitespace and
case mappings) is modeled on the ASCII fragment, which is the fragment
the script's own data (directory names, category names, templates)
lives in.
-/

namespace Cabinet

/-! ### Python string primitives -/

/-- The whitespace characters recognized by Python `str.strip()` (ASCII part). -/
def isPySpace (c : Char) : Bool :=
  c = ' ' || c = '\t' || c = '\n' || c = '\x0d' || c = '\x0b' || c = '\x0c'

/-- `str.strip()` on a character list. -/
def stripChars (l : List Char) : List Char :=
  ((l.dropWhile isPySpace).reverse.dropWhile isPySpace).reverse

/-- Python `str.strip()`. -/
def pyStrip (s : String) : String := String.mk (stripChars s.data)

/-- Python `str.lower()` (ASCII model). -/
def pyLower (s : String) : String := String.mk (s.data.map Char.toLower)

/-- One step of Python `str.title()`: capitalize a letter that follows a
non-letter, lowercase a letter that follows a letter. -/
def titleChars : List Char → Bool → List Char
  | [], _ => []
  | c :: rest, prevAlpha =>
    (if c.isAlpha then (if prevAlpha then c.toLower else c.toUpper) else c)
      :: titleChars rest c.isAlpha

/-- Python `str.title()` (ASCII model of cased characters). -/
def pyTitle (s : String) : String := String.mk (titleChars s.data false)

/-- Lexicographic strict comparison of character lists by code point;
this is how Python compares strings. -/
def lexLt : List Char → List Char → Bool
  | _, [] => false
  | [], _ :: _ => true
  | a :: as, b :: bs => if a < b then true else if b < a then false else lexLt as bs

/-- Python `<` on strings. -/
def strLtB (s t : String) : Bool := lexLt s.data t.data

/-- Python `<` on naturals, as a Bool. -/
def natLtB (a b : Nat) : Bool := decide (a < b)

/-- Python `<` on pairs given `<` on the components: lexicographic. -/
def pairLtB {α β : Type} (ltA : α → α → Bool) (ltB : β → β → Bool) (p q : α × β) : Bool :=
  if ltA p.1 q.1 then true else if ltA q.1 p.1 then false else ltB p.2 q.2

/-- The non-strict comparator a stable Python `sorted(key=k)` realizes:
`a` may stay before `b` iff `not (key b < key a)`. -/
abbrev keyRel {α κ : Type} (ltK : κ → κ → Bool) (k : α → κ) (a b : α) : Prop :=
  ltK (k b) (k a) = false

/-- Decimal digits of a natural number, fuel-driven so that the kernel
can evaluate it (`natDigitsGo (n+1) n` is always enough fuel). -/
def natDigitsGo : Nat → Nat → List Char
  | 0, _ => []
  | fuel + 1, n =>
    if n < 10 then [Nat.digitChar n]
    else natDigitsGo fuel (n / 10) ++ [Nat.digitChar (n % 10)]

/-- Decimal digits of a natural number, most significant first. -/
def natDigits (n : Nat) : List Char := natDigitsGo (n + 1) n

/-- Python `str(n)` for a natural number. -/
def natRepr (n : Nat) : String := String.mk (natDigits n)

/-- Python `f"{n:03d}"` for `n : Nat`: decimal digits left-padded with
zeros to a minimum width of 3. -/
def pad3 (n : Nat) : String :=
  String.mk (List.replicate (3 - (natDigits n).length) '0' ++ natDigits n)

/-- Per-character expansion performed by Python `html.escape(s, quote=True)`. -/
def escapeChar (c : Char) : List Char :=
  if c = '&' then ['&', 'a', 'm', 'p', ';']
  else if c = '<' then ['&', 'l', 't', ';']
  else if c = '>' then ['&', 'g', 't', ';']
  else if c = '"' then ['&', 'q', 'u', 'o', 't', ';']
  else if c = '\x27' then ['&', '#', 'x', '2', '7', ';']
  else [c]

/-- Python `html.escape(s, quote=True)`. -/
def htmlEscape (s : String) : String := String.mk (s.data.flatMap escapeChar)

/-- Fuel-driven worker for Python `str.replace`: replace every
non-overlapping occurrence of `pat`, scanning left to right. -/
def replaceGo (pat rep : List Char) : Nat → List Char → List Char
  | _, [] => []
  | 0, l => l
  | fuel + 1, c :: rest =>
    if pat.isPrefixOf (c :: rest) then
      rep ++ replaceGo pat rep fuel (List.drop pat.length (c :: rest))
    else
      c :: replaceGo pat rep fuel rest

/-- Python `s.replace(pat, rep)` (for non-empty `pat`, which is the only
way the script uses it). -/
def pyReplace (s pat rep : String) : String :=
  String.mk (replaceGo pat.data rep.data s.data.length s.data)

/-- Maximal runs of characters satisfying `keep`; models
`re.split` on the complement followed by discarding empty pieces, and
`pathlib` path-segment splitting. -/
def splitRunsGo (keep : Char → Bool) : List Char → List Char → List (List Char)
  | [], acc => if acc.isEmpty then [] else [acc.reverse]
  | c :: rest, acc =>
    if keep c then splitRunsGo keep rest (c :: acc)
    else if acc.isEmpty then splitRunsGo keep rest []
    else acc.reverse :: splitRunsGo keep rest []

def splitRuns (keep : Char → Bool) (l : List Char) : List (List Char) :=
  splitRunsGo keep l []

/-- Python `sep.join(parts)` on character lists. -/
def joinSep (sep : List Char) : List (List Char) → List Char
  | [] => []
  | [a] => a
  | a :: rest => a ++ sep ++ joinSep sep rest

/-- Python `sep.join(parts)`. -/
def pyJoin (sep : String) (parts : List String) : String :=
  String.mk (joinSep sep.data (parts.map String.data))

/-- Association-list lookup, modeling a Python `dict` literal. -/
def alistLookup : List (String × String) → String → Option String
  | [], _ => none
  | (k, v) :: rest, key => if k = key then some v else alistLookup rest key

/-! ### Constant tables of `build.py` -/

def DISPLAY_NAMES : List (String × String) :=
  [("wonton-soup", "Wonton Soup"), ("lenia-swarm", "Lenia Swarm")]

def DOSSIER_CODES : List (String × String) :=
  [("wonton-soup", "WS"), ("lenia-swarm", "LS")]

def CATEGORY_ORDER : List String := ["core", "backends", "providers", "corpus"]

/-! ### Data model -/

/-- One discovered document: `{path, title, slug, category}` in `find_docs`. -/
structure Entry where
  path : String
  title : String
  slug : String
  category : String
deriving DecidableEq, Repr

/-- An entry after `assign_doc_ids` has attached `doc_id`. -/
structure DocEntry where
  entry : Entry
  doc_id : String
deriving DecidableEq, Repr

/-! ### `entry_sort_key` -/

/-- `entry_sort_key`: `(category rank, lowercased title, slug)`.
`List.indexOf` returns the list length when the element is absent,
which is exactly the `else len(CATEGORY_ORDER)` branch. -/
def entry_sort_key (e : Entry) : Nat × String × String :=
  (CATEGORY_ORDER.indexOf e.category, pyLower e.title, e.slug)

/-- Python `<` on the sort-key triples (tuple comparison). -/
def keyLtB : Nat × String × String → Nat × String × String → Bool :=
  pairLtB natLtB (pairLtB strLtB strLtB)

/-- Document order used by `sorted(entries, key=entry_sort_key)`. -/
abbrev entryLE : Entry → Entry → Prop := keyRel keyLtB entry_sort_key

/-- The same order on id-carrying entries (`build_index` re-sorts them). -/
abbrev docLE : DocEntry → DocEntry → Prop :=
  keyRel keyLtB (fun e : DocEntry => entry_sort_key e.entry)

/-- The same order on index-tagged entries (used to model the in-place
mutation of `assign_doc_ids`: the tag is the position in the original
list and the comparator ignores it, so `List.insertionSort`, being
stable, reorders tags exactly as Python's stable `sorted` reorders the
dict objects). -/
abbrev taggedLE : Nat × Entry → Nat × Entry → Prop :=
  keyRel keyLtB (fun p : Nat × Entry => entry_sort_key p.2)

/-! ### `extract_title` -/

/-- The regex `^#\s+(.+)$` applied to one (newline-free) line: it
matches iff the line is `'#'`, then a whitespace character, then at
least one more character; the captured group, after `strip()`, is the
stripped remainder of the line after the `'#'`. -/
def h1Match (line : String) : Option String :=
  match line.data with
  | c0 :: c1 :: rest =>
    if c0 = '#' && isPySpace c1 && !rest.isEmpty then some (pyStrip (String.mk (c1 :: rest)))
    else none
  | _ => none

def firstH1 : List String → Option String
  | [] => none
  | line :: rest =>
    match h1Match line with
    | some t => some t
    | none => firstH1 rest

def firstNonEmptyStripped : List String → Option String
  | [] => none
  | line :: rest =>
    let s := pyStrip line
    if s = "" then firstNonEmptyStripped rest else some s

/-- `extract_title`, as a function of the file's lines (`splitlines()`
output) and of the file stem. -/
def extract_title (lines : List String) (stem : String) : String :=
  match firstH1 (lines.take 5) with
  | some t => t
  | none =>
    match firstNonEmptyStripped (lines.take 3) with
    | some s => s
    | none =>
      pyTitle (String.mk (stem.data.map
        (fun c => if c = '-' then ' ' else if c = '_' then ' ' else c)))

/-! ### `dossier_code` and display names -/

/-- `dossier_code`: explicit override, else uppercased initials of the
first up-to-3 alphanumeric words, else the first two characters uppercased. -/
def dossier_code (dossier : String) : String :=
  match alistLookup DOSSIER_CODES dossier with
  | some c => c
  | none =>
    let parts := splitRuns Char.isAlphanum dossier.data
    let initials := String.mk (((parts.take 3).filterMap List.head?).map Char.toUpper)
    if initials = "" then String.mk ((dossier.data.take 2).map Char.toUpper) else initials

/-- `DISPLAY_NAMES.get(dossier, dossier.replace("-", " ").title())`. -/
def displayName (dossier : String) : String :=
  match alistLookup DISPLAY_NAMES dossier with
  | some d => d
  | none => pyTitle (String.mk (dossier.data.map (fun c => if c = '-' then ' ' else c)))

/-! ### `find_docs`

The file system under the single configured root `REPO_ROOT/dossiers`
is modeled as a list of pairs: a dossier directory name together with
the files found recursively under its `docs` folder.  A missing root
or a missing `docs` folder is the empty list / absence of the pair.
Each file is its path (as segments relative to the `docs` folder) plus
its text content split into lines. -/

/-- A file under some `docs` directory: relative path segments (last
segment is the file name, extension included) and `splitlines()` content. -/
structure MdFile where
  parts : List String
  lines : List String
deriving DecidableEq, Repr

/-- The relative POSIX path of a file; Python compares `Path` objects by
their path strings, and inside one `docs` tree that is comparison of
these joined segments. -/
def pathKey (f : MdFile) : String := pyJoin "/" f.parts

/-- `rglob("*.md")` membership: the file name ends in `.md`. -/
def isMd (f : MdFile) : Bool :=
  ".md".data.isSuffixOf (f.parts.getLastD "").data

/-- `Path.with_suffix("")` / `Path.stem` on an `.md` file name: drop the
`.md` suffix, except that a name that is exactly `.md` has no suffix to drop. -/
def stripMdName (name : String) : String :=
  if name = ".md" then name else String.mk (name.data.take (name.data.length - 3))

/-- `rel.with_suffix("").as_posix()`. -/
def slugOf (f : MdFile) : String :=
  pyJoin "/" (f.parts.dropLast ++ [stripMdName (f.parts.getLastD "")])

/-- `rel.parts[0] if len(rel.parts) > 1 else ""`. -/
def categoryOf (f : MdFile) : String :=
  if f.parts.length > 1 then f.parts.headD "" else ""

/-- The dict entry built for one markdown file (the stored `path` is
kept relative to the repository root, i.e. `str(md)` minus the
machine-specific absolute prefix). -/
def entryOf (dossier : String) (f : MdFile) : Entry :=
  { path := "dossiers/" ++ dossier ++ "/docs/" ++ pathKey f
    title := extract_title f.lines (stripMdName (f.parts.getLastD ""))
    slug := slugOf f
    category := categoryOf f }

/-- Order of `sorted(root.glob("*/docs"))`: full path strings share the
root prefix, so it is code-point order of `name + "/docs"`. -/
abbrev globLE : String × List MdFile → String × List MdFile → Prop :=
  keyRel strLtB (fun x : String × List MdFile => x.1 ++ "/docs")

/-- Order of `sorted(docs_dir.rglob("*.md"))` inside one `docs` tree. -/
abbrev fileLE : MdFile → MdFile → Prop := keyRel strLtB pathKey

/-- Order of `sorted(dossiers.keys())` / `sorted(dossiers.items())`:
dossier names are pairwise distinct (they are directory names), so the
tuple comparison never reaches the second component. -/
abbrev nameLE {β : Type} : String × β → String × β → Prop :=
  keyRel strLtB (fun x : String × β => x.1)

/-- `find_docs()`: for each dossier directory (in glob order) collect
its markdown files (in path order), build entries, and keep the
dossier only if at least one entry was found.  The result models the
insertion-ordered dict `{dossier: entries}`. -/
def find_docs (tree : List (String × List MdFile)) : List (String × List Entry) :=
  ((List.insertionSort globLE tree).map
    (fun p => (p.1, (List.insertionSort fileLE (p.2.filter isMd)).map (entryOf p.1)))).filter
    (fun p => !p.2.isEmpty)

/-! ### `assign_doc_ids` -/

/-- `assign_doc_ids` for one dossier: each entry of the original list
receives `f"{code}-{idx:03d}"` where `idx` is its 1-based position in
the stable sort by `entry_sort_key`.  The original list order is kept,
as the Python code only mutates the entry dicts in place. -/
def assignIds (code : String) (entries : List Entry) : List DocEntry :=
  let sortedTagged := List.insertionSort taggedLE entries.enum
  entries.enum.map
    (fun p => { entry := p.2
                doc_id := code ++ "-" ++ pad3 (1 + List.indexOf p.1 (sortedTagged.map Prod.fst)) })

/-- `assign_doc_ids` over all dossiers. -/
def assign_doc_ids (dossiers : List (String × List Entry)) : List (String × List DocEntry) :=
  dossiers.map (fun p => (p.1, assignIds (dossier_code p.1) p.2))

/-! ### `render_doc` -/

/-- Paths are kept relative to the repository root. -/
def TEMPLATE_PATH : String := "site/cabinet/cabinet-template.html"

/-- `Path(slug).parts` length: the number of non-empty `/`-separated
segments (pathlib collapses repeated separators). -/
def slugPartsCount (slug : String) : Nat :=
  (splitRuns (fun c => !(c = '/')) slug.data).length

/-- `"../" * depth`. -/
def rootPfx (depth : Nat) : String :=
  String.mk (List.flatten (List.replicate depth "../".data))

/-- `<cabinet>/<dossier>/<slug>/index.html`, relative to the repo root. -/
def outFileFor (dossier slug : String) : String :=
  "site/cabinet/" ++ dossier ++ "/" ++ slug ++ "/index.html"

/-- The exact pandoc command line built by `render_doc`. -/
def pandocCmd (e : DocEntry) (dossier : String) (builtAt : String) : List String :=
  ["pandoc", e.entry.path,
   "--from=markdown+lists_without_preceding_blankline",
   "--to=html5",
   "--standalone",
   "--wrap=none",
   "--template=" ++ TEMPLATE_PATH,
   "--toc",
   "--toc-depth=3",
   "--mathml",
   "--metadata", "lang=en",
   "--metadata", "pagetitle=" ++ e.entry.title ++ " | SPECTER Labs",
   "--metadata", "slug=" ++ e.entry.slug,
   "--metadata", "doc_id=" ++ e.doc_id,
   "--metadata", "dossier=" ++ displayName dossier,
   "--metadata", "root_prefix=" ++ rootPfx (2 + slugPartsCount e.entry.slug),
   "--metadata", "source_path=" ++ e.entry.path,
   "--metadata", "built_at=" ++ builtAt]
  ++ (if e.entry.category = "" then [] else ["--metadata", "category=" ++ e.entry.category])

/-- The external converter: command line to (returncode, stdout, stderr). -/
def Conv : Type := List String → Int × String × String

/-- `render_doc`: run the converter; on non-zero exit report
`FAIL <path>: <stripped stderr>` (and the caller exits 1), otherwise
produce the write of captured stdout to the output `index.html`. -/
def render_doc (conv : Conv) (e : DocEntry) (dossier : String) (builtAt : String) :
    Except String (String × String) :=
  let r := conv (pandocCmd e dossier builtAt)
  if r.1 ≠ 0 then Except.error ("FAIL " ++ e.entry.path ++ ": " ++ pyStrip r.2.2)
  else Except.ok (outFileFor dossier e.entry.slug, r.2.1)

/-! ### `build_index` -/

/-- The `<a class="drawer-item" ...>` fragment for one document. -/
def itemHtml (dossier : String) (e : DocEntry) : String :=
  let href := dossier ++ "/" ++ e.entry.slug ++ "/"
  let catSpan :=
    if e.entry.category = "" then ""
    else "<span class=\"drawer-item-category\">" ++ htmlEscape e.entry.category ++ "</span>"
  "<a class=\"drawer-item\" href=\"" ++ htmlEscape href ++ "\">"
    ++ "<span class=\"drawer-item-id\">" ++ htmlEscape e.doc_id ++ "</span>"
    ++ "<span class=\"drawer-item-title\">" ++ htmlEscape e.entry.title ++ "</span>"
    ++ catSpan ++ "</a>"

/-- The `<div class="cabinet-drawer">` fragment for one dossier. -/
def drawerHtml (p : String × List DocEntry) : String :=
  "<div class=\"cabinet-drawer\"><div class=\"drawer-tab\">"
    ++ htmlEscape (displayName p.1)
    ++ "<span class=\"drawer-tab-count\">" ++ natRepr p.2.length ++ "</span>"
    ++ "</div><div class=\"drawer-body\">"
    ++ pyJoin "" ((List.insertionSort docLE p.2).map (itemHtml p.1))
    ++ "</div></div>"

def DRAWERS_MARKER : String := "<!-- DRAWERS -->"

/-- All drawer fragments, one per dossier in sorted-name order, joined
with newlines: the string substituted for the marker. -/
def drawersJoined (dossiers : List (String × List DocEntry)) : String :=
  pyJoin "\n" ((List.insertionSort nameLE dossiers).map drawerHtml)

/-- `build_index`: substitute the drawer fragments into the static
index template (the written file's contents). -/
def build_index (template : String) (dossiers : List (String × List DocEntry)) : String :=
  pyReplace template DRAWERS_MARKER (drawersJoined dossiers)

/-! ### `clean_generated` -/

/-- A directory child of the output root. -/
structure FsChild where
  name : String
  isDir : Bool
deriving DecidableEq, Repr

/-- `clean_generated`: remove (recursively) every directory child whose
name is not `.` or `..`; the returned list is what remains. -/
def clean_generated (children : List FsChild) : List FsChild :=
  children.filter (fun c => !(c.isDir && !(c.name = "." || c.name = "..")))

/-! ### `main` -/

/-- Observable outcome of a run: exit status, stderr lines, whether
`clean_generated` ran, and the files written (path, contents) in order. -/
structure RunResult where
  exitCode : Nat
  stderrLines : List String
  cleaned : Bool
  writes : List (String × String)
deriving DecidableEq, Repr

/-- Render documents in processing order, accumulating writes, stopping
at the first failure with its stderr message. -/
def renderAllGo (conv : Conv) (builtAt : String) :
    List (String × DocEntry) → List (String × String) →
    List (String × String) × Option String
  | [], acc => (acc.reverse, none)
  | (dossier, e) :: rest, acc =>
    match render_doc conv e dossier builtAt with
    | Except.error msg => (acc.reverse, some msg)
    | Except.ok w => renderAllGo conv builtAt rest (w :: acc)

/-- The flattened render order of `main`: dossiers sorted by name, each
dossier's entries in their stored (discovery) order. -/
def processList (dossiers : List (String × List DocEntry)) : List (String × DocEntry) :=
  (List.insertionSort nameLE dossiers).flatMap (fun p => p.2.map (fun e => (p.1, e)))

/-- `main()`.  The environment is passed in explicitly: whether
`shutil.which("pandoc")` succeeds, whether the render template file
exists, the input tree, the converter, the index template's text and
the fixed build timestamp. -/
def mainRun (pandocFound templateExists : Bool) (tree : List (String × List MdFile))
    (conv : Conv) (indexTemplate builtAt : String) : RunResult :=
  if !pandocFound then
    { exitCode := 1, stderrLines := ["pandoc not found. Install pandoc >= 3.x."],
      cleaned := false, writes := [] }
  else if !templateExists then
    { exitCode := 1, stderrLines := ["Missing template: " ++ TEMPLATE_PATH],
      cleaned := false, writes := [] }
  else
    let dossiers := find_docs tree
    if dossiers.isEmpty then
      { exitCode := 1, stderrLines := ["No docs found in dossiers/*/docs/."],
        cleaned := false, writes := [] }
    else
      let withIds := assign_doc_ids dossiers
      match renderAllGo conv builtAt (processList withIds) [] with
      | (ws, some msg) =>
        { exitCode := 1, stderrLines := [msg], cleaned := true, writes := ws }
      | (ws, none) =>
        { exitCode := 0, stderrLines := [], cleaned := true,
          writes := ws ++ [("site/cabinet/index.html", build_index indexTemplate withIds)] }

/-! ### Order-theoretic facts about the comparators -/

/-- A boolean strict linear order: asymmetric, connected (two
incomparable values are equal) and transitive. -/
structure IsSLO {α : Type} (lt : α → α → Bool) : Prop where
  asymm : ∀ a b, lt a b = true → lt b a = false
  connex : ∀ a b, lt a b = false → lt b a = false → a = b
  lt_trans : ∀ a b c, lt a b = true → lt b c = true → lt a c = true

/-- Reading a digit string back into a number (used only in proofs). -/
def charsVal (l : List Char) : Nat :=
  l.foldl (fun a c => 10 * a + (c.toNat - 48)) 0

/-- Concrete data used by the C1 witness. -/
def wEntryA : Entry :=
  { path := "dossiers/demo/docs/b.md", title := "Beta", slug := "b", category := "" }

def wEntryB : Entry :=
  { path := "dossiers/demo/docs/core/a.md", title := "Alpha", slug := "core/a",
    category := "core" }

def wEntries : List Entry := [wEntryA, wEntryB]

def wDossiers : List (String × List Entry) := [("demo", wEntries)]

/-- The title rule as the specification words it: among the first 5
lines, the first one matching the level-1 heading pattern `# <text>`
contributes its trimmed text (the text after the `#`, stripped);
otherwise the first line among the first 3 with non-empty stripped
content contributes that; otherwise the file stem with `-`/`_`
replaced by spaces, title-cased. -/
def specTitle (lines : List String) (stem : String) : String :=
  match (lines.take 5).find? (fun line => (h1Match line).isSome) with
  | some line => pyStrip (String.mk (line.data.drop 1))
  | none =>
    match (lines.take 3).find? (fun line => !(decide (pyStrip line = ""))) with
    | some line => pyStrip line
    | none =>
      pyTitle (String.mk (stem.data.map
        (fun c => if c = '-' then ' ' else if c = '_' then ' ' else c)))

/-- Concrete children used by the C7 witness: one generated dossier
directory and one template file. -/
def wChildren : List FsChild :=
  [{ name := "wonton-soup", isDir := true },
   { name := "cabinet-template.html", isDir := false },
   { name := "index-template.html", isDir := false }]

/-- Concrete document used by the C8 witness. -/
def wDoc : DocEntry :=
  { entry := { path := "dossiers/demo/docs/core/a.md", title := "Alpha", slug := "core/a",
               category := "core" }
    doc_id := "D-001" }

def ltOkAfter (l : List Char) : Bool :=
  match l with
  | c2 :: rest2 =>
    c2 = 'd' || c2 = 'a' || c2 = '/' ||
      (c2 = 's' && (match rest2 with
        | c3 :: _ => c3 = 'p'
        | [] => false))
  | [] => false

def goodLt : List Char → Bool
  | [] => true
  | c :: rest => (if c = '<' then ltOkAfter rest else true) && goodLt rest

/-- Concrete data used by the C3 witness. -/
def wScriptEntry : DocEntry :=
  { entry := { path := "dossiers/demo/docs/x.md",
               title := "Attack <script>alert(1)</script>", slug := "x", category := "" }
    doc_id := "D-001" }

def wScriptDossiers : List (String × List DocEntry) := [("demo", [wScriptEntry])]

/-- Concrete data used by the C4 witness. -/
def wTree : List (String × List MdFile) :=
  [("demo", [{ parts := ["a.md"], lines := ["# Alpha"] }])]

def wFailConv : Conv := fun _ => (1, "", " boom\n")

def wEntryR : DocEntry :=
  { entry := { path := "dossiers/demo/docs/a.md", title := "Alpha", slug := "a",
               category := "" }
    doc_id := "D-001" }

def wOkConv : Conv := fun _ => (0, "", "")

def normTree (t : List (String × List MdFile)) : List (String × List MdFile) :=
  t.map (fun p => (p.1, List.insertionSort fileLE (p.2.filter isMd)))

def entriesOf (q : String × List MdFile) : String × List Entry :=
  (q.1, q.2.map (entryOf q.1))

/-- Concrete data used by the C9 witness: the same two dossiers and
files, enumerated in two different orders. -/
def wFileA : MdFile := { parts := ["a.md"], lines := ["# One"] }

def wFileB : MdFile := { parts := ["b.md"], lines := ["# Two"] }

def wTree1 : List (String × List MdFile) := [("beta", [wFileA, wFileB]), ("alpha", [])]

def wTree2 : List (String × List MdFile) := [("alpha", []), ("beta", [wFileB, wFileA])]

/-- Concrete data used by the C10 witness: a dossier whose docs folder
holds only a non-markdown file, next to a dossier with a real document. -/
def wEmptyFs : List MdFile := [{ parts := ["readme.txt"], lines := ["hello"] }]

def wFullPost : List (String × List MdFile) :=
  [("full", [{ parts := ["a.md"], lines := ["# A"] }])]

theorem natLtB_slo : IsSLO natLtB := by
  constructor
  · intro a b h
    simp only [natLtB, decide_eq_true_eq, decide_eq_false_iff_not] at h ⊢
    omega
  · intro a b h h'
    simp only [natLtB, decide_eq_false_iff_not] at h h'
    omega
  · intro a b c h h'
    simp only [natLtB, decide_eq_true_eq] at h h' ⊢
    omega

theorem lexLt_slo : IsSLO lexLt := by
  constructor
  · intro a
    induction a with
    | nil => intro b h; cases b <;> simp [lexLt] at h ⊢
    | cons x xs ih =>
      intro b h
      cases b with
      | nil => simp [lexLt] at h
      | cons y ys =>
        simp only [lexLt] at h ⊢
        rcases lt_trichotomy x y with hxy | hxy | hxy
        · rw [if_neg (asymm hxy), if_pos hxy]
        · subst hxy
          rw [if_neg (lt_irrefl x), if_neg (lt_irrefl x)] at h ⊢
          exact ih ys h
        · rw [if_neg (asymm hxy), if_pos hxy] at h
          exact absurd h (by simp)
  · intro a
    induction a with
    | nil => intro b h h'; cases b <;> simp [lexLt] at h h' ⊢
    | cons x xs ih =>
      intro b h h'
      cases b with
      | nil => simp [lexLt] at h'
      | cons y ys =>
        simp only [lexLt] at h h'
        rcases lt_trichotomy x y with hxy | hxy | hxy
        · rw [if_pos hxy] at h; exact absurd h (by simp)
        · subst hxy
          rw [if_neg (lt_irrefl x), if_neg (lt_irrefl x)] at h h'
          rw [ih ys h h']
        · rw [if_pos hxy] at h'; exact absurd h' (by simp)
  · intro a
    induction a with
    | nil =>
      intro b c h h'
      cases b with
      | nil => simp [lexLt] at h
      | cons y ys => cases c with
        | nil => simp [lexLt] at h'
        | cons z zs => simp [lexLt]
    | cons x xs ih =>
      intro b c h h'
      cases b with
      | nil => simp [lexLt] at h
      | cons y ys =>
        cases c with
        | nil => simp [lexLt] at h'
        | cons z zs =>
          simp only [lexLt] at h h' ⊢
          rcases lt_trichotomy x y with hxy | hxy | hxy
          · rcases lt_trichotomy y z with hyz | hyz | hyz
            · rw [if_pos (lt_trans hxy hyz)]
            · subst hyz; rw [if_pos hxy]
            · rw [if_neg (asymm hyz), if_pos hyz] at h'
              exact absurd h' (by simp)
          · subst hxy
            rcases lt_trichotomy x z with hxz | hxz | hxz
            · rw [if_pos hxz]
            · subst hxz
              rw [if_neg (lt_irrefl x), if_neg (lt_irrefl x)] at h h' ⊢
              exact ih ys zs h h'
            · rw [if_neg (asymm hxz), if_pos hxz] at h'
              exact absurd h' (by simp)
          · rw [if_neg (asymm hxy), if_pos hxy] at h
            exact absurd h (by simp)

theorem strLtB_slo : IsSLO strLtB := by
  constructor
  · intro a b h; exact lexLt_slo.asymm _ _ h
  · intro a b h h'
    apply String.ext
    exact lexLt_slo.connex _ _ h h'
  · intro a b c h h'; exact lexLt_slo.lt_trans _ _ _ h h'

theorem pairLtB_slo {α β : Type} {ltA : α → α → Bool} {ltB : β → β → Bool}
    (hA : IsSLO ltA) (hB : IsSLO ltB) : IsSLO (pairLtB ltA ltB) := by
  constructor
  · intro p q h
    simp only [pairLtB] at h ⊢
    by_cases h1 : ltA p.1 q.1 = true
    · rw [if_neg (by simp [hA.asymm _ _ h1]), if_pos h1]
    · rw [if_neg h1] at h
      by_cases h2 : ltA q.1 p.1 = true
      · rw [if_pos h2] at h; exact absurd h (by simp)
      · rw [if_neg h2] at h
        rw [if_neg h2, if_neg h1]
        simp only [Bool.not_eq_true] at h1
        exact hB.asymm _ _ h
  · intro p q h h'
    simp only [pairLtB] at h h'
    by_cases h1 : ltA p.1 q.1 = true
    · rw [if_pos h1] at h; exact absurd h (by simp)
    · by_cases h2 : ltA q.1 p.1 = true
      · rw [if_pos h2] at h'; exact absurd h' (by simp)
      · simp only [Bool.not_eq_true] at h1 h2
        rw [if_neg (by simp [h1]), if_neg (by simp [h2])] at h
        rw [if_neg (by simp [h2]), if_neg (by simp [h1])] at h'
        have e1 := hA.connex _ _ h1 h2
        have e2 := hB.connex _ _ h h'
        exact Prod.ext e1 e2
  · intro p q r h h'
    simp only [pairLtB] at h h' ⊢
    by_cases h1 : ltA p.1 q.1 = true
    · by_cases h2 : ltA q.1 r.1 = true
      · rw [if_pos (hA.lt_trans _ _ _ h1 h2)]
      · rw [if_neg h2] at h'
        by_cases h3 : ltA r.1 q.1 = true
        · rw [if_pos h3] at h'; exact absurd h' (by simp)
        · rw [if_neg h3] at h'
          simp only [Bool.not_eq_true] at h2 h3
          have e := hA.connex _ _ h2 h3
          have h1' : ltA p.1 r.1 = true := by rw [← e]; exact h1
          rw [if_pos h1']
    · rw [if_neg h1] at h
      by_cases h1' : ltA q.1 p.1 = true
      · rw [if_pos h1'] at h; exact absurd h (by simp)
      · rw [if_neg h1'] at h
        simp only [Bool.not_eq_true] at h1 h1'
        have e := hA.connex _ _ h1 h1'
        by_cases h2 : ltA q.1 r.1 = true
        · rw [if_pos (show ltA p.1 r.1 = true by rw [e]; exact h2)]
        · rw [if_neg h2] at h'
          by_cases h3 : ltA r.1 q.1 = true
          · rw [if_pos h3] at h'; exact absurd h' (by simp)
          · rw [if_neg h3] at h'
            simp only [Bool.not_eq_true] at h2 h3
            rw [if_neg (show ¬ ltA p.1 r.1 = true by rw [e]; simp [h2]),
                if_neg (show ¬ ltA r.1 p.1 = true by rw [e]; simp [h3])]
            exact hB.lt_trans _ _ _ h h'

theorem keyLtB_slo : IsSLO keyLtB :=
  pairLtB_slo natLtB_slo (pairLtB_slo strLtB_slo strLtB_slo)

/-! Generic facts about `keyRel`-sorting. -/

theorem keyRel_total {α κ : Type} {ltK : κ → κ → Bool} (h : IsSLO ltK) (k : α → κ) :
    ∀ a b, keyRel ltK k a b ∨ keyRel ltK k b a := by
  intro a b
  cases hab : ltK (k b) (k a) with
  | false => exact Or.inl hab
  | true => exact Or.inr (h.asymm _ _ hab)

theorem keyRel_trans {α κ : Type} {ltK : κ → κ → Bool} (h : IsSLO ltK) (k : α → κ) :
    ∀ a b c, keyRel ltK k a b → keyRel ltK k b c → keyRel ltK k a c := by
  intro a b c hab hbc
  simp only [keyRel] at hab hbc
  cases hca : ltK (k c) (k a) with
  | false => exact hca
  | true =>
    exfalso
    cases hab2 : ltK (k a) (k b) with
    | false =>
      have e := h.connex _ _ hab2 hab
      rw [e] at hca
      rw [hca] at hbc
      cases hbc
    | true =>
      have := h.lt_trans _ _ _ hca hab2
      rw [this] at hbc
      cases hbc

theorem sorted_isort_keyRel {α κ : Type} {ltK : κ → κ → Bool} (h : IsSLO ltK) (k : α → κ)
    (l : List α) : List.Sorted (keyRel ltK k) (List.insertionSort (keyRel ltK k) l) :=
  @List.sorted_insertionSort _ _ _ ⟨keyRel_total h k⟩ ⟨keyRel_trans h k⟩ l

/-- Two sorted lists that are permutations of each other and whose keys
are pairwise distinct are equal. -/
theorem eq_of_perm_of_sorted_keyRel {α κ : Type} {ltK : κ → κ → Bool} (h : IsSLO ltK)
    (k : α → κ) {l₁ l₂ : List α} (hp : List.Perm l₁ l₂)
    (hs₁ : List.Sorted (keyRel ltK k) l₁) (hs₂ : List.Sorted (keyRel ltK k) l₂)
    (hnd : (l₁.map k).Nodup) : l₁ = l₂ := by
  have hnd₂ : (l₂.map k).Nodup := ((hp.map k).nodup_iff).mp hnd
  have hne₁ : l₁.Pairwise (fun a b => k a ≠ k b) := List.pairwise_map.mp hnd
  have hne₂ : l₂.Pairwise (fun a b => k a ≠ k b) := List.pairwise_map.mp hnd₂
  have strict : ∀ {l : List α}, List.Sorted (keyRel ltK k) l →
      l.Pairwise (fun a b => k a ≠ k b) → l.Pairwise (fun a b => ltK (k a) (k b) = true) := by
    intro l hs hne
    have := List.Pairwise.and hs hne
    refine this.imp ?_
    intro a b hab
    cases hlt : ltK (k a) (k b) with
    | true => rfl
    | false => exact absurd (h.connex _ _ hlt hab.1) hab.2
  exact @List.eq_of_perm_of_sorted _ _
    ⟨fun a b hab hba => absurd hba (by simp [h.asymm _ _ hab])⟩ _ _
    hp (strict hs₁ hne₁) (strict hs₂ hne₂)

/-- `insertionSort` commutes with mapping a function that preserves sort keys. -/
theorem isort_map_keyRel {α β κ : Type} (ltK : κ → κ → Bool) (kα : α → κ) (kβ : β → κ)
    (f : α → β) (hf : ∀ a, kβ (f a) = kα a) (l : List α) :
    (List.insertionSort (keyRel ltK kα) l).map f =
      List.insertionSort (keyRel ltK kβ) (l.map f) := by
  have hins : ∀ (x : α) (L : List α),
      (List.orderedInsert (keyRel ltK kα) x L).map f =
        List.orderedInsert (keyRel ltK kβ) (f x) (L.map f) := by
    intro x L
    induction L with
    | nil => simp [List.orderedInsert]
    | cons y ys ih =>
      simp only [List.orderedInsert, List.map_cons]
      by_cases hxy : keyRel ltK kα x y
      · rw [if_pos hxy, if_pos (by simpa [keyRel, hf] using hxy), List.map_cons, List.map_cons]
      · rw [if_neg hxy, if_neg (by simpa [keyRel, hf] using hxy), List.map_cons, ih]
  induction l with
  | nil => simp
  | cons x xs ih =>
    simp only [List.insertionSort, List.map_cons]
    rw [hins, ih]

/-! ### Decimal digits: evaluation and injectivity of `pad3` -/

theorem digitChar_toNat {d : Nat} (h : d < 10) : (Nat.digitChar d).toNat = 48 + d := by
  interval_cases d <;> rfl

theorem natDigitsGo_foldl : ∀ (fuel n : Nat), n < fuel → ∀ (a : Nat),
    List.foldl (fun a c => 10 * a + (c.toNat - 48)) a (natDigitsGo fuel n) =
      a * 10 ^ (natDigitsGo fuel n).length + n := by
  intro fuel
  induction fuel with
  | zero => intro n h; omega
  | succ fuel ih =>
    intro n h a
    by_cases h10 : n < 10
    · simp only [natDigitsGo, if_pos h10, List.foldl_cons, List.foldl_nil, List.length_cons,
        List.length_nil, digitChar_toNat h10]
      ring_nf
      omega
    · have hrec : n / 10 < fuel := by omega
      simp only [natDigitsGo, if_neg h10, List.foldl_append, List.length_append,
        List.foldl_cons, List.foldl_nil, List.length_cons, List.length_nil,
        ih (n / 10) hrec a, digitChar_toNat (by omega : n % 10 < 10)]
      ring_nf
      omega

theorem charsVal_natDigits (n : Nat) : charsVal (natDigits n) = n := by
  have := natDigitsGo_foldl (n + 1) n (by omega) 0
  simpa [charsVal, natDigits] using this

theorem charsVal_pad3 (n : Nat) : charsVal (pad3 n).data = n := by
  have hrep : ∀ (m : Nat),
      List.foldl (fun a c => 10 * a + (c.toNat - 48)) 0 (List.replicate m '0') = 0 := by
    intro m
    induction m with
    | zero => rfl
    | succ m ih => simpa [List.replicate_succ] using ih
  have : (pad3 n).data = List.replicate (3 - (natDigits n).length) '0' ++ natDigits n := rfl
  rw [charsVal, this, List.foldl_append, hrep]
  exact charsVal_natDigits n

theorem pad3_inj {a b : Nat} (h : pad3 a = pad3 b) : a = b := by
  have := congrArg (fun s : String => charsVal s.data) h
  simpa [charsVal_pad3] using this

theorem id_string_inj (code : String) {a b : Nat}
    (h : code ++ "-" ++ pad3 a = code ++ "-" ++ pad3 b) : a = b := by
  apply pad3_inj
  have hd := congrArg String.data h
  rw [String.data_append, String.data_append, String.data_append, String.data_append,
    List.append_assoc, List.append_assoc] at hd
  have := List.append_cancel_left hd
  have := List.append_cancel_left this
  exact String.ext this

/-! ### Facts about `assign_doc_ids` -/

/-- The original-index projection of the stable sort of the tagged
entries is duplicate-free (it is a permutation of `range`). -/
theorem sortedTagged_fst_nodup (entries : List Entry) :
    ((List.insertionSort taggedLE entries.enum).map Prod.fst).Nodup := by
  have hperm : List.Perm (List.insertionSort taggedLE entries.enum) entries.enum :=
    List.perm_insertionSort _ _
  have : List.Perm ((List.insertionSort taggedLE entries.enum).map Prod.fst)
      (entries.enum.map Prod.fst) := hperm.map _
  rw [List.enum_map_fst] at this
  exact this.nodup_iff.mpr (List.nodup_range _)

/-- The document found at position `k` of the sort receives the ID built
from position `k + 1`. -/
theorem assignIds_at (code : String) (entries : List Entry) {k j : Nat} {e : Entry}
    (hkj : (List.insertionSort taggedLE entries.enum)[k]? = some (j, e)) :
    (assignIds code entries)[j]? = some ⟨e, code ++ "-" ++ pad3 (k + 1)⟩ := by
  obtain ⟨hk, hS⟩ := List.getElem?_eq_some.mp hkj
  have hmem : (j, e) ∈ entries.enum := by
    have : (j, e) ∈ List.insertionSort taggedLE entries.enum := hS ▸ List.getElem_mem hk
    exact (List.perm_insertionSort taggedLE entries.enum).mem_iff.mp this
  obtain ⟨hj, hje⟩ := List.mem_enum hmem
  have hidx := List.indexOf_getElem (sortedTagged_fst_nodup entries) k (by simpa using hk)
  rw [List.getElem_map, hS] at hidx
  have hidx2 : List.indexOf j
      ((List.insertionSort taggedLE entries.enum).map Prod.fst) = k := hidx
  have hj2 : j < entries.enum.length := by simpa [List.enum_length] using hj
  show ((entries.enum.map _))[j]? = _
  rw [List.getElem?_map, List.getElem?_eq_getElem hj2, List.getElem_enum]
  show some (⟨entries[j], code ++ "-" ++ pad3 (1 + List.indexOf j
      ((List.insertionSort taggedLE entries.enum).map Prod.fst))⟩ : DocEntry) = _
  rw [hidx2, Nat.add_comm 1 k, ← hje]

/-- The list of assigned IDs, in original entry order, is exactly the
image of the original indices under `index-in-sorted-order + 1`. -/
theorem assignIds_map_doc_id (code : String) (entries : List Entry) :
    (assignIds code entries).map DocEntry.doc_id =
      (List.range entries.length).map
        (fun i => code ++ "-" ++ pad3 (1 + List.indexOf i
          ((List.insertionSort taggedLE entries.enum).map Prod.fst))) := by
  show (entries.enum.map _).map _ = _
  rw [List.map_map, ← List.enum_map_fst entries, List.map_map]
  rfl

theorem assignIds_entries (code : String) (entries : List Entry) :
    (assignIds code entries).map DocEntry.entry = entries := by
  show (entries.enum.map _).map _ = _
  rw [List.map_map]
  have : (DocEntry.entry ∘ fun p : Nat × Entry =>
      (⟨p.2, code ++ "-" ++ pad3 (1 + List.indexOf p.1
        ((List.insertionSort taggedLE entries.enum).map Prod.fst))⟩ : DocEntry))
      = Prod.snd := rfl
  rw [this, List.enum_map_snd]

theorem assignIds_ids_nodup (code : String) (entries : List Entry) :
    ((assignIds code entries).map DocEntry.doc_id).Nodup := by
  rw [assignIds_map_doc_id]
  have hF : List.Perm ((List.insertionSort taggedLE entries.enum).map Prod.fst)
      (List.range entries.length) := by
    have := (List.perm_insertionSort taggedLE entries.enum).map Prod.fst
    rwa [List.enum_map_fst] at this
  apply List.Nodup.map_on ?_ (List.nodup_range _)
  intro x hx y hy hxy
  have hxF : x ∈ (List.insertionSort taggedLE entries.enum).map Prod.fst :=
    hF.mem_iff.mpr (by simpa using hx)
  have hyF : y ∈ (List.insertionSort taggedLE entries.enum).map Prod.fst :=
    hF.mem_iff.mpr (by simpa using hy)
  have hidx : (1 : Nat) + List.indexOf x _ = 1 + List.indexOf y _ := id_string_inj code hxy
  have hxi := List.getElem_indexOf (List.indexOf_lt_length.mpr hxF)
  have hyi := List.getElem_indexOf (List.indexOf_lt_length.mpr hyF)
  rw [← hxi, ← hyi]
  congr 1
  omega

/-- The multiset of assigned IDs is `{code-001, …, code-N}`. -/
theorem assignIds_ids_perm (code : String) (entries : List Entry) :
    List.Perm ((assignIds code entries).map DocEntry.doc_id)
      ((List.range entries.length).map (fun k => code ++ "-" ++ pad3 (k + 1))) := by
  rw [assignIds_map_doc_id]
  have hF : List.Perm (List.range entries.length)
      ((List.insertionSort taggedLE entries.enum).map Prod.fst) := by
    have := (List.perm_insertionSort taggedLE entries.enum).map Prod.fst
    rw [List.enum_map_fst] at this
    exact this.symm
  refine (hF.map _).trans ?_
  have hlen : ((List.insertionSort taggedLE entries.enum).map Prod.fst).length
      = entries.length := by
    simp [List.length_map, List.enum_length,
      (List.perm_insertionSort taggedLE entries.enum).length_eq]
  have : ((List.insertionSort taggedLE entries.enum).map Prod.fst).map
      (fun i => code ++ "-" ++ pad3 (1 + List.indexOf i
        ((List.insertionSort taggedLE entries.enum).map Prod.fst)))
      = (List.range entries.length).map (fun k => code ++ "-" ++ pad3 (k + 1)) := by
    apply List.ext_getElem (by simp [hlen])
    intro n h₁ h₂
    have hn : n < ((List.insertionSort taggedLE entries.enum).map Prod.fst).length := by
      simpa using h₁
    have hidx := List.indexOf_getElem (sortedTagged_fst_nodup entries) n hn
    rw [List.getElem_map] at hidx
    simp only [List.getElem_map, List.getElem_range]
    rw [hidx, Nat.add_comm 1 n]
  rw [this]

/-- The entry projection of the stable tagged sort is the stable sort of
the entries: positions in the tagged sort are positions in the claimed
`(category rank, lowercase title, slug)` document order. -/
theorem sortedTagged_map_snd (entries : List Entry) :
    (List.insertionSort taggedLE entries.enum).map Prod.snd
      = List.insertionSort entryLE entries := by
  have h := isort_map_keyRel keyLtB (fun p : Nat × Entry => entry_sort_key p.2)
    entry_sort_key Prod.snd (fun a => rfl) entries.enum
  rw [List.enum_map_snd] at h
  exact h

/-- **C1**: for every collection `(name, entries)` of the input,
`assign_doc_ids` gives it the code `dossier_code name`; the entry list
is kept (only IDs are attached); the document at position `k` of the
sort by `(category rank, lowercase title, slug)` — where the rank of a
category in the fixed preference list is its position and unrecognized
categories rank after all known ones — receives exactly the ID
`code ++ "-" ++ pad3 (k+1)`; hence IDs are zero-padded to width 3,
sequential from 1, and pairwise distinct within the collection. -/
theorem c1_assign_doc_ids (dossiers : List (String × List Entry)) (name : String)
    (entries : List Entry) (hmem : (name, entries) ∈ dossiers) :
    (name, assignIds (dossier_code name) entries) ∈ assign_doc_ids dossiers ∧
    (assignIds (dossier_code name) entries).map DocEntry.entry = entries ∧
    (List.insertionSort taggedLE entries.enum).map Prod.snd
      = List.insertionSort entryLE entries ∧
    (∀ k j e, (List.insertionSort taggedLE entries.enum)[k]? = some (j, e) →
      (assignIds (dossier_code name) entries)[j]?
        = some ({ entry := e, doc_id := dossier_code name ++ "-" ++ pad3 (k + 1) } : DocEntry)) ∧
    ((assignIds (dossier_code name) entries).map DocEntry.doc_id).Nodup ∧
    List.Perm ((assignIds (dossier_code name) entries).map DocEntry.doc_id)
      ((List.range entries.length).map (fun k => dossier_code name ++ "-" ++ pad3 (k + 1))) ∧
    (∀ e : Entry, e.category ∈ CATEGORY_ORDER →
      (entry_sort_key e).1 < CATEGORY_ORDER.length) ∧
    (∀ e : Entry, e.category ∉ CATEGORY_ORDER →
      (entry_sort_key e).1 = CATEGORY_ORDER.length) := by
  refine ⟨?_, assignIds_entries _ _, sortedTagged_map_snd _,
    fun k j e h => assignIds_at _ _ h, assignIds_ids_nodup _ _, assignIds_ids_perm _ _,
    ?_, ?_⟩
  · exact List.mem_map.mpr ⟨(name, entries), hmem, rfl⟩
  · intro e he
    exact List.indexOf_lt_length.mpr he
  · intro e he
    simp only [entry_sort_key]
    exact List.indexOf_eq_length.mpr he

theorem c1_assign_doc_ids_witness :
    ("demo", wEntries) ∈ wDossiers ∧
    (("demo", assignIds (dossier_code "demo") wEntries) ∈ assign_doc_ids wDossiers ∧
    (assignIds (dossier_code "demo") wEntries).map DocEntry.entry = wEntries ∧
    (List.insertionSort taggedLE wEntries.enum).map Prod.snd
      = List.insertionSort entryLE wEntries ∧
    (∀ k j e, (List.insertionSort taggedLE wEntries.enum)[k]? = some (j, e) →
      (assignIds (dossier_code "demo") wEntries)[j]?
        = some ({ entry := e, doc_id := dossier_code "demo" ++ "-" ++ pad3 (k + 1) } : DocEntry)) ∧
    ((assignIds (dossier_code "demo") wEntries).map DocEntry.doc_id).Nodup ∧
    List.Perm ((assignIds (dossier_code "demo") wEntries).map DocEntry.doc_id)
      ((List.range wEntries.length).map (fun k => dossier_code "demo" ++ "-" ++ pad3 (k + 1))) ∧
    (∀ e : Entry, e.category ∈ CATEGORY_ORDER →
      (entry_sort_key e).1 < CATEGORY_ORDER.length) ∧
    (∀ e : Entry, e.category ∉ CATEGORY_ORDER →
      (entry_sort_key e).1 = CATEGORY_ORDER.length)) :=
  ⟨by decide, c1_assign_doc_ids wDossiers "demo" wEntries (by decide)⟩

/-! ### Facts about `splitRuns` and `dossier_code` -/

theorem splitRunsGo_all_neg (keep : Char → Bool) :
    ∀ (l : List Char) (acc : List Char), (∀ c ∈ l, keep c = false) →
      splitRunsGo keep l acc = if acc.isEmpty then [] else [acc.reverse] := by
  intro l
  induction l with
  | nil => intro acc h; rfl
  | cons c rest ih =>
    intro acc h
    have hc : keep c = false := h c (by simp)
    have hrest : ∀ x ∈ rest, keep x = false := fun x hx => h x (by simp [hx])
    simp only [splitRunsGo, hc, Bool.false_eq_true, if_false]
    by_cases hacc : acc.isEmpty
    · rw [if_pos hacc, ih [] hrest, if_pos hacc]
      rfl
    · rw [if_neg hacc, ih [] hrest, if_neg hacc]
      rfl

theorem splitRunsGo_ne_nil (keep : Char → Bool) :
    ∀ (l : List Char) (acc : List Char),
      ((∃ c ∈ l, keep c = true) ∨ acc ≠ []) → splitRunsGo keep l acc ≠ [] := by
  intro l
  induction l with
  | nil =>
    intro acc h
    rcases h with h | h
    · simp at h
    · simp only [splitRunsGo]
      rw [if_neg (by simpa [List.isEmpty_iff] using h)]
      simp
  | cons c rest ih =>
    intro acc h
    simp only [splitRunsGo]
    by_cases hc : keep c = true
    · rw [if_pos hc]
      exact ih (c :: acc) (Or.inr (by simp))
    · rw [if_neg hc]
      by_cases hacc : acc.isEmpty
      · rw [if_pos hacc]
        apply ih []
        left
        rcases h with ⟨x, hx, hkx⟩ | hne
        · rcases List.mem_cons.mp hx with hx2 | hx2
          · exact absurd (hx2 ▸ hkx) hc
          · exact ⟨x, hx2, hkx⟩
        · exact absurd (by simpa [List.isEmpty_iff] using hacc) hne
      · rw [if_neg hacc]
        simp

theorem splitRunsGo_mem_ne_nil (keep : Char → Bool) :
    ∀ (l : List Char) (acc : List Char), ∀ p ∈ splitRunsGo keep l acc, p ≠ [] := by
  intro l
  induction l with
  | nil =>
    intro acc p hp
    simp only [splitRunsGo] at hp
    by_cases hacc : acc.isEmpty
    · rw [if_pos hacc] at hp; simp at hp
    · rw [if_neg hacc] at hp
      simp only [List.mem_singleton] at hp
      subst hp
      simpa [List.isEmpty_iff] using hacc
  | cons c rest ih =>
    intro acc p hp
    simp only [splitRunsGo] at hp
    by_cases hc : keep c = true
    · rw [if_pos hc] at hp
      exact ih (c :: acc) p hp
    · rw [if_neg hc] at hp
      by_cases hacc : acc.isEmpty
      · rw [if_pos hacc] at hp
        exact ih [] p hp
      · rw [if_neg hacc] at hp
        rcases List.mem_cons.mp hp with hp | hp
        · subst hp
          simpa [List.isEmpty_iff] using hacc
        · exact ih [] p hp

/-- **C6**: collection codes.  The explicit override table wins; a name
with at least one alphanumeric character (and no override) gets the
uppercased initials of its first up-to-3 alphanumeric words; a name
with no alphanumeric character at all falls back to its first two
characters uppercased.  `wonton-soup` goes through the override path
(the table maps it to `WS`), while `alpha-beta-gamma` is not in the
table and yields `ABG` by initials. -/
theorem c6_dossier_code :
    (∀ d c, alistLookup DOSSIER_CODES d = some c → dossier_code d = c) ∧
    (∀ d, alistLookup DOSSIER_CODES d = none → (∃ ch ∈ d.data, ch.isAlphanum = true) →
      dossier_code d = String.mk ((((splitRuns Char.isAlphanum d.data).take 3).filterMap
        List.head?).map Char.toUpper)) ∧
    (∀ d, alistLookup DOSSIER_CODES d = none → (∀ ch ∈ d.data, ch.isAlphanum = false) →
      dossier_code d = String.mk ((d.data.take 2).map Char.toUpper)) ∧
    alistLookup DOSSIER_CODES "alpha-beta-gamma" = none ∧
    dossier_code "alpha-beta-gamma" = "ABG" ∧
    alistLookup DOSSIER_CODES "wonton-soup" = some "WS" ∧
    dossier_code "wonton-soup" = "WS" := by
  refine ⟨?_, ?_, ?_, by decide, by decide, by decide, by decide⟩
  · intro d c h
    simp only [dossier_code, h]
  · intro d hn hex
    simp only [dossier_code, hn]
    have hparts : splitRuns Char.isAlphanum d.data ≠ [] :=
      splitRunsGo_ne_nil Char.isAlphanum d.data [] (Or.inl hex)
    have hne : String.mk ((((splitRuns Char.isAlphanum d.data).take 3).filterMap
        List.head?).map Char.toUpper) ≠ "" := by
      obtain ⟨p, rest, hpr⟩ : ∃ p rest, splitRuns Char.isAlphanum d.data = p :: rest := by
        cases hsp : splitRuns Char.isAlphanum d.data with
        | nil => exact absurd hsp hparts
        | cons p rest => exact ⟨p, rest, rfl⟩
      have hpne : p ≠ [] :=
        splitRunsGo_mem_ne_nil Char.isAlphanum d.data [] p (by rw [show splitRunsGo Char.isAlphanum d.data [] = splitRuns Char.isAlphanum d.data from rfl, hpr]; simp)
      obtain ⟨h0, t0, hp0⟩ : ∃ h0 t0, p = h0 :: t0 := by
        cases hp : p with
        | nil => exact absurd hp hpne
        | cons h0 t0 => exact ⟨h0, t0, rfl⟩
      intro hcontra
      have := congrArg String.data hcontra
      simp [hpr, hp0, List.take_succ_cons, List.filterMap_cons] at this
    rw [if_neg hne]
  · intro d hn hall
    simp only [dossier_code, hn]
    have hparts : splitRuns Char.isAlphanum d.data = [] := by
      have := splitRunsGo_all_neg Char.isAlphanum d.data [] hall
      simpa [splitRuns] using this
    rw [if_pos (by simp [hparts])]

theorem c6_dossier_code_witness :
    alistLookup DOSSIER_CODES "lenia-swarm" = some "LS" ∧
    dossier_code "lenia-swarm" = "LS" :=
  ⟨by decide, (c6_dossier_code).1 "lenia-swarm" "LS" (by decide)⟩

/-! ### C2: `extract_title` against the specified title rule -/

/-- A line accepted by the heading pattern yields, as its captured
group stripped, exactly the stripped remainder of the line after `#`. -/
theorem h1Match_eq_strip_drop {line : String} {t : String} (h : h1Match line = some t) :
    t = pyStrip (String.mk (line.data.drop 1)) := by
  unfold h1Match at h
  cases hdata : line.data with
  | nil => rw [hdata] at h; cases h
  | cons c0 rest0 =>
    rw [hdata] at h
    cases rest0 with
    | nil => cases h
    | cons c1 rest =>
      change (if (decide (c0 = '#') && isPySpace c1 && !rest.isEmpty) = true
        then some (pyStrip (String.mk (c1 :: rest))) else none) = some t at h
      by_cases hcond : (decide (c0 = '#') && isPySpace c1 && !rest.isEmpty) = true
      · rw [if_pos hcond] at h
        injection h with h2
        exact h2.symm
      · rw [if_neg hcond] at h
        cases h

theorem firstH1_eq_find (lines : List String) :
    firstH1 lines = ((lines.find? (fun line => (h1Match line).isSome)).map
      (fun line => pyStrip (String.mk (line.data.drop 1)))) := by
  induction lines with
  | nil => rfl
  | cons line rest ih =>
    cases hm : h1Match line with
    | some t =>
      have e1 : firstH1 (line :: rest) = some t := by simp [firstH1, hm]
      have e2 : List.find? (fun l => (h1Match l).isSome) (line :: rest) = some line := by
        simp [List.find?, hm]
      rw [e1, e2]
      simp [h1Match_eq_strip_drop hm]
    | none =>
      have e1 : firstH1 (line :: rest) = firstH1 rest := by simp [firstH1, hm]
      have e2 : List.find? (fun l => (h1Match l).isSome) (line :: rest)
          = List.find? (fun l => (h1Match l).isSome) rest := by
        simp [List.find?, hm]
      rw [e1, e2, ih]

theorem firstNonEmpty_eq_find (lines : List String) :
    firstNonEmptyStripped lines
      = (lines.find? (fun l => !(decide (pyStrip l = "")))).map pyStrip := by
  induction lines with
  | nil => rfl
  | cons line rest ih =>
    by_cases hs : pyStrip line = ""
    · have e1 : firstNonEmptyStripped (line :: rest) = firstNonEmptyStripped rest := by
        simp [firstNonEmptyStripped, hs]
      have e2 : List.find? (fun l => !(decide (pyStrip l = ""))) (line :: rest)
          = List.find? (fun l => !(decide (pyStrip l = ""))) rest := by
        simp [List.find?, hs]
      rw [e1, e2, ih]
    · have e1 : firstNonEmptyStripped (line :: rest) = some (pyStrip line) := by
        simp [firstNonEmptyStripped, hs]
      have e2 : List.find? (fun l => !(decide (pyStrip l = ""))) (line :: rest) = some line := by
        simp [List.find?, hs]
      rw [e1, e2]
      rfl

/-- **C2**: `extract_title` follows the specified rule exactly: the
trimmed text of the first level-1 heading among the first 5 lines if
any (regardless of later lines); else the trimmed text of the first
line with non-empty stripped content among the first 3; else the
title-cased stem with `-`/`_` turned into spaces. -/
theorem c2_extract_title (lines : List String) (stem : String) :
    extract_title lines stem = specTitle lines stem := by
  unfold extract_title specTitle
  rw [firstH1_eq_find]
  cases hf : List.find? (fun line => (h1Match line).isSome) (lines.take 5) with
  | some line => simp
  | none =>
    simp only [Option.map_none]
    rw [firstNonEmpty_eq_find]
    cases hg : List.find? (fun l => !(decide (pyStrip l = ""))) (lines.take 3) with
    | some line => simp
    | none => simp

/-! ### C7: `clean_generated` -/

/-- **C7**: cleanup removes exactly the directory children whose name
is not `.` or `..` (each removed recursively, i.e. the whole child
subtree goes), and nothing else; since `.` and `..` never occur as
real directory children, every directory child is removed and every
non-directory child (e.g. the template files) survives unchanged, in
order. -/
theorem c7_clean_generated (children : List FsChild) :
    clean_generated children = children.filter
      (fun c => !c.isDir || decide (c.name = ".") || decide (c.name = "..")) ∧
    ((∀ c ∈ children, c.name ≠ "." ∧ c.name ≠ "..") →
      clean_generated children = children.filter (fun c => !c.isDir)) := by
  have hbase : clean_generated children = children.filter
      (fun c => !c.isDir || decide (c.name = ".") || decide (c.name = "..")) := by
    apply List.filter_congr
    intro c hc
    cases hd : c.isDir <;> cases h1 : decide (c.name = ".") <;>
      cases h2 : decide (c.name = "..") <;> simp [hd, h1, h2]
  refine ⟨hbase, ?_⟩
  intro h
  rw [hbase]
  apply List.filter_congr
  intro c hc
  simp [(h c hc).1, (h c hc).2]

theorem c7_clean_generated_witness :
    (∀ c ∈ wChildren, c.name ≠ "." ∧ c.name ≠ "..") ∧
    clean_generated wChildren = wChildren.filter (fun c => !c.isDir) :=
  ⟨by decide, (c7_clean_generated wChildren).2 (by decide)⟩

/-! ### C8: `build_index` structure -/

/-- **C8**: the generated index is the static template with the single
marker replaced by the newline-joined drawer fragments; drawers are in
ascending collection-name order and none is dropped or duplicated;
each drawer fragment carries the escaped display name, the document
count, and the document links sorted by `(category rank, lowercase
title, slug)` exactly as for ID assignment; each link shows the
document ID and title, and a category label only when the category is
non-empty. -/
theorem c8_build_index (template : String) (dossiers : List (String × List DocEntry)) :
    build_index template dossiers
      = pyReplace template DRAWERS_MARKER
          (pyJoin "\n" ((List.insertionSort nameLE dossiers).map drawerHtml)) ∧
    List.Sorted nameLE (List.insertionSort nameLE dossiers) ∧
    List.Perm (List.insertionSort nameLE dossiers) dossiers ∧
    (∀ p : String × List DocEntry, drawerHtml p
      = "<div class=\"cabinet-drawer\"><div class=\"drawer-tab\">"
        ++ htmlEscape (displayName p.1)
        ++ "<span class=\"drawer-tab-count\">" ++ natRepr p.2.length ++ "</span>"
        ++ "</div><div class=\"drawer-body\">"
        ++ pyJoin "" ((List.insertionSort docLE p.2).map (itemHtml p.1))
        ++ "</div></div>") ∧
    (∀ p : String × List DocEntry, List.Sorted docLE (List.insertionSort docLE p.2) ∧
      List.Perm (List.insertionSort docLE p.2) p.2) ∧
    (∀ (d : String) (e : DocEntry), e.entry.category = "" → itemHtml d e
      = "<a class=\"drawer-item\" href=\"" ++ htmlEscape (d ++ "/" ++ e.entry.slug ++ "/")
        ++ "\">" ++ "<span class=\"drawer-item-id\">" ++ htmlEscape e.doc_id ++ "</span>"
        ++ "<span class=\"drawer-item-title\">" ++ htmlEscape e.entry.title ++ "</span>"
        ++ "</a>") ∧
    (∀ (d : String) (e : DocEntry), e.entry.category ≠ "" → itemHtml d e
      = "<a class=\"drawer-item\" href=\"" ++ htmlEscape (d ++ "/" ++ e.entry.slug ++ "/")
        ++ "\">" ++ "<span class=\"drawer-item-id\">" ++ htmlEscape e.doc_id ++ "</span>"
        ++ "<span class=\"drawer-item-title\">" ++ htmlEscape e.entry.title ++ "</span>"
        ++ ("<span class=\"drawer-item-category\">" ++ htmlEscape e.entry.category ++ "</span>")
        ++ "</a>") := by
  refine ⟨rfl, sorted_isort_keyRel strLtB_slo _ dossiers, List.perm_insertionSort _ _,
    fun p => rfl,
    fun p => ⟨sorted_isort_keyRel keyLtB_slo _ p.2, List.perm_insertionSort _ _⟩,
    ?_, ?_⟩
  · intro d e hc
    unfold itemHtml
    rw [if_pos hc]
    simp [String.append_assoc]
  · intro d e hc
    unfold itemHtml
    rw [if_neg hc]

theorem c8_build_index_witness :
    wDoc.entry.category ≠ "" ∧
    itemHtml "demo" wDoc
      = "<a class=\"drawer-item\" href=\"" ++ htmlEscape ("demo" ++ "/" ++ wDoc.entry.slug ++ "/")
        ++ "\">" ++ "<span class=\"drawer-item-id\">" ++ htmlEscape wDoc.doc_id ++ "</span>"
        ++ "<span class=\"drawer-item-title\">" ++ htmlEscape wDoc.entry.title ++ "</span>"
        ++ ("<span class=\"drawer-item-category\">" ++ htmlEscape wDoc.entry.category ++ "</span>")
        ++ "</a>" :=
  ⟨by decide, (c8_build_index "" []).2.2.2.2.2.2 "demo" wDoc (by decide)⟩

/-! ### C3: HTML escaping in the generated index

Every `<` the index fragments ever contain comes from one of the fixed
structural tags (`<a`, `<span`, `<div`, and the closing forms); the
predicate `goodLt` states that every `<` is followed by `a`, `d`, `/`
or `sp` within the same list, which rules out any occurrence of the
eight characters `<script>`. -/

theorem ltOkAfter_append {t : List Char} (b : List Char) (h : ltOkAfter t = true) :
    ltOkAfter (t ++ b) = true := by
  cases t with
  | nil => cases h
  | cons c2 rest2 =>
    cases rest2 with
    | nil =>
      simp only [ltOkAfter, Bool.or_eq_true, Bool.and_eq_true] at h
      rcases h with ((h | h) | h) | ⟨hs, hf⟩
      · simp [ltOkAfter, h]
      · simp [ltOkAfter, h]
      · simp [ltOkAfter, h]
      · cases hf
    | cons c3 rs =>
      simp only [ltOkAfter, Bool.or_eq_true, Bool.and_eq_true] at h ⊢
      simpa using h

theorem goodLt_append {a b : List Char} (ha : goodLt a = true) (hb : goodLt b = true) :
    goodLt (a ++ b) = true := by
  induction a with
  | nil => simpa using hb
  | cons c rest ih =>
    simp only [goodLt, Bool.and_eq_true] at ha
    simp only [List.cons_append, goodLt, Bool.and_eq_true]
    refine ⟨?_, ih ha.2⟩
    by_cases hc : c = '<'
    · rw [if_pos hc] at ha ⊢
      exact ltOkAfter_append b ha.1
    · rw [if_neg hc]

theorem goodLt_of_no_lt {l : List Char} (h : ∀ c ∈ l, c ≠ '<') : goodLt l = true := by
  induction l with
  | nil => rfl
  | cons c rest ih =>
    simp only [goodLt, Bool.and_eq_true]
    refine ⟨?_, ih (fun x hx => h x (by simp [hx]))⟩
    rw [if_neg (h c (by simp))]

theorem escapeChar_no_angle (ch : Char) : ∀ c ∈ escapeChar ch, c ≠ '<' ∧ c ≠ '>' := by
  unfold escapeChar
  split_ifs with h1 h2 h3 h4 h5
  · exact fun c hc => (by decide : ∀ c ∈ ['&', 'a', 'm', 'p', ';'], c ≠ '<' ∧ c ≠ '>') c hc
  · exact fun c hc => (by decide : ∀ c ∈ ['&', 'l', 't', ';'], c ≠ '<' ∧ c ≠ '>') c hc
  · exact fun c hc => (by decide : ∀ c ∈ ['&', 'g', 't', ';'], c ≠ '<' ∧ c ≠ '>') c hc
  · exact fun c hc => (by decide : ∀ c ∈ ['&', 'q', 'u', 'o', 't', ';'], c ≠ '<' ∧ c ≠ '>') c hc
  · exact fun c hc => (by decide : ∀ c ∈ ['&', '#', 'x', '2', '7', ';'], c ≠ '<' ∧ c ≠ '>') c hc
  · intro c hc
    have : c = ch := by simpa using hc
    subst this
    exact ⟨h2, h3⟩

theorem htmlEscape_no_angle (s : String) : ∀ c ∈ (htmlEscape s).data, c ≠ '<' ∧ c ≠ '>' := by
  intro c hc
  have : c ∈ s.data.flatMap escapeChar := hc
  obtain ⟨a, _, hca⟩ := List.mem_flatMap.mp this
  exact escapeChar_no_angle a c hca

theorem goodLt_htmlEscape (s : String) : goodLt (htmlEscape s).data = true :=
  goodLt_of_no_lt (fun c hc => (htmlEscape_no_angle s c hc).1)

theorem natDigitsGo_shape : ∀ (fuel n : Nat), ∀ c ∈ natDigitsGo fuel n,
    ∃ d, d < 10 ∧ c = Nat.digitChar d := by
  intro fuel
  induction fuel with
  | zero => intro n c hc; cases hc
  | succ fuel ih =>
    intro n c hc
    by_cases h10 : n < 10
    · simp only [natDigitsGo, if_pos h10, List.mem_singleton] at hc
      exact ⟨n, h10, hc⟩
    · simp only [natDigitsGo, if_neg h10, List.mem_append, List.mem_singleton] at hc
      rcases hc with hc | hc
      · exact ih (n / 10) c hc
      · exact ⟨n % 10, by omega, hc⟩

theorem natRepr_no_lt (n : Nat) : ∀ c ∈ (natRepr n).data, c ≠ '<' := by
  intro c hc
  obtain ⟨d, hd, rfl⟩ := natDigitsGo_shape (n + 1) n c hc
  interval_cases d <;> decide

theorem goodLt_natRepr (n : Nat) : goodLt (natRepr n).data = true :=
  goodLt_of_no_lt (natRepr_no_lt n)

theorem goodLt_strAppend {a b : String} (ha : goodLt a.data = true)
    (hb : goodLt b.data = true) : goodLt (a ++ b).data = true := by
  rw [String.data_append]
  exact goodLt_append ha hb

theorem goodLt_joinSep {sep : List Char} (hsep : goodLt sep = true) :
    ∀ (parts : List (List Char)), (∀ p ∈ parts, goodLt p = true) →
      goodLt (joinSep sep parts) = true := by
  intro parts
  induction parts with
  | nil => intro h; rfl
  | cons a rest ih =>
    intro h
    cases rest with
    | nil => exact h a (by simp [joinSep])
    | cons b rs =>
      have ha : goodLt a = true := h a (by simp)
      have hrest : ∀ p ∈ b :: rs, goodLt p = true := fun p hp => h p (by simp [hp])
      show goodLt (a ++ sep ++ joinSep sep (b :: rs)) = true
      exact goodLt_append (goodLt_append ha hsep) (ih hrest)

theorem goodLt_pyJoin {sep : String} (hsep : goodLt sep.data = true)
    (parts : List String) (h : ∀ p ∈ parts, goodLt p.data = true) :
    goodLt (pyJoin sep parts).data = true := by
  apply goodLt_joinSep hsep
  intro p hp
  obtain ⟨x, hx, rfl⟩ := List.mem_map.mp hp
  exact h x hx

theorem goodLt_itemHtml (d : String) (e : DocEntry) : goodLt (itemHtml d e).data = true := by
  unfold itemHtml
  by_cases hc : e.entry.category = ""
  · rw [if_pos hc]
    repeat' apply goodLt_strAppend
    all_goals first
      | exact goodLt_htmlEscape _
      | decide
  · rw [if_neg hc]
    repeat' apply goodLt_strAppend
    all_goals first
      | exact goodLt_htmlEscape _
      | decide

theorem goodLt_drawerHtml (p : String × List DocEntry) :
    goodLt (drawerHtml p).data = true := by
  unfold drawerHtml
  repeat' apply goodLt_strAppend
  all_goals first
    | exact goodLt_htmlEscape _
    | exact goodLt_natRepr _
    | exact goodLt_pyJoin (by decide) _ (by
        intro q hq
        obtain ⟨x, hx, rfl⟩ := List.mem_map.mp hq
        exact goodLt_itemHtml _ _)
    | decide

theorem goodLt_drawersJoined (dossiers : List (String × List DocEntry)) :
    goodLt (drawersJoined dossiers).data = true := by
  unfold drawersJoined
  apply goodLt_pyJoin (by decide)
  intro q hq
  obtain ⟨x, hx, rfl⟩ := List.mem_map.mp hq
  exact goodLt_drawerHtml x

/-- A `goodLt` character list has no occurrence of `<script>`. -/
theorem no_script_of_goodLt : ∀ (l : List Char), goodLt l = true →
    ¬ ("<script>".data <:+: l) := by
  intro l
  induction l with
  | nil =>
    intro _ hinf
    have := List.infix_nil.mp hinf
    cases this
  | cons c rest ih =>
    intro h hinf
    rcases List.infix_cons_iff.mp hinf with hpre | hinf2
    · rcases hpre with ⟨t, ht⟩
      have hd : c :: rest
          = '<' :: 's' :: 'c' :: (['r', 'i', 'p', 't', '>'] ++ t) := by
        rw [← ht]; rfl
      rw [hd] at h
      have hf : goodLt ('<' :: 's' :: 'c' :: (['r', 'i', 'p', 't', '>'] ++ t)) = false := rfl
      rw [hf] at h
      cases h
    · simp only [goodLt, Bool.and_eq_true] at h
      exact ih h.2 hinf2

theorem str_infix_append (a b c : String) : b.data <:+: (a ++ b ++ c).data := by
  rw [String.data_append, String.data_append]
  exact List.infix_append _ _ _

theorem str_infix_extend {x : List Char} {s : String} (h : x <:+: s.data) (t : String) :
    x <:+: (s ++ t).data := by
  rw [String.data_append]
  exact h.trans ⟨[], t.data, rfl⟩

theorem joinSep_infix_of_mem (sep : List Char) :
    ∀ (parts : List (List Char)) (p : List Char), p ∈ parts → p <:+: joinSep sep parts := by
  intro parts
  induction parts with
  | nil => intro p hp; cases hp
  | cons a rest ih =>
    intro p hp
    cases rest with
    | nil =>
      have : p = a := by simpa using hp
      subst this
      exact List.infix_refl _
    | cons b rs =>
      rcases List.mem_cons.mp hp with rfl | hp2
      · exact ⟨[], sep ++ joinSep sep (b :: rs), by simp [joinSep, List.append_assoc]⟩
      · refine (ih p hp2).trans ?_
        exact ⟨a ++ sep, [], by simp [joinSep, List.append_assoc]⟩

theorem pyJoin_infix_of_mem (sep : String) (parts : List String) (p : String)
    (hp : p ∈ parts) : p.data <:+: (pyJoin sep parts).data :=
  joinSep_infix_of_mem sep.data _ _ (List.mem_map.mpr ⟨p, hp, rfl⟩)

theorem htmlEscape_infix_mono {s : String} {pat : List Char} (h : pat <:+: s.data) :
    pat.flatMap escapeChar <:+: (htmlEscape s).data := by
  obtain ⟨u, v, huv⟩ := h
  refine ⟨u.flatMap escapeChar, v.flatMap escapeChar, ?_⟩
  show u.flatMap escapeChar ++ pat.flatMap escapeChar ++ v.flatMap escapeChar = _
  rw [← List.flatMap_append, ← List.flatMap_append, huv]
  rfl

theorem itemHtml_contains_title (d : String) (e : DocEntry) :
    (htmlEscape e.entry.title).data <:+: (itemHtml d e).data := by
  unfold itemHtml
  exact str_infix_extend (str_infix_extend (str_infix_append _ _ _) _) _

theorem drawerHtml_contains_join (p : String × List DocEntry) :
    (pyJoin "" ((List.insertionSort docLE p.2).map (itemHtml p.1))).data
      <:+: (drawerHtml p).data := by
  unfold drawerHtml
  exact str_infix_append _ _ _

/-- **C3**: every user-controlled text inserted into the generated index
markup (title, category, href, document ID, display name) passes
through `htmlEscape`, whose output never contains a raw `<` or `>`;
consequently, whenever some document's title contains `<script>`, the
generated drawer markup contains the escaped form `&lt;script&gt;`,
and — whatever the input — it never contains raw `<script>` markup. -/
theorem c3_html_escaping (dossiers : List (String × List DocEntry)) (name : String)
    (es : List DocEntry) (e : DocEntry) (hmem : (name, es) ∈ dossiers) (he : e ∈ es)
    (hscript : "<script>".data <:+: e.entry.title.data) :
    ("&lt;script&gt;".data <:+: (drawersJoined dossiers).data) ∧
    ¬ ("<script>".data <:+: (drawersJoined dossiers).data) ∧
    (∀ s : String, ∀ c ∈ (htmlEscape s).data, c ≠ '<' ∧ c ≠ '>') := by
  refine ⟨?_, no_script_of_goodLt _ (goodLt_drawersJoined dossiers), htmlEscape_no_angle⟩
  have h1 : "&lt;script&gt;".data <:+: (htmlEscape e.entry.title).data := by
    have h0 := htmlEscape_infix_mono hscript
    rwa [show ("<script>".data.flatMap escapeChar) = "&lt;script&gt;".data from by decide] at h0
  have h2 := h1.trans (itemHtml_contains_title name e)
  have he2 : e ∈ List.insertionSort docLE es := (List.mem_insertionSort _).mpr he
  have h3 : (itemHtml name e).data
      <:+: (pyJoin "" ((List.insertionSort docLE es).map (itemHtml name))).data :=
    pyJoin_infix_of_mem _ _ _ (List.mem_map.mpr ⟨e, he2, rfl⟩)
  have h4 := (h2.trans h3).trans (drawerHtml_contains_join (name, es))
  have hq : (name, es) ∈ List.insertionSort nameLE dossiers :=
    (List.mem_insertionSort _).mpr hmem
  have h5 : (drawerHtml (name, es)).data <:+: (drawersJoined dossiers).data := by
    unfold drawersJoined
    exact pyJoin_infix_of_mem _ _ _ (List.mem_map.mpr ⟨(name, es), hq, rfl⟩)
  exact h4.trans h5

theorem c3_html_escaping_witness :
    (("demo", [wScriptEntry]) ∈ wScriptDossiers) ∧ (wScriptEntry ∈ [wScriptEntry]) ∧
    ("<script>".data <:+: wScriptEntry.entry.title.data) ∧
    (("&lt;script&gt;".data <:+: (drawersJoined wScriptDossiers).data) ∧
     ¬ ("<script>".data <:+: (drawersJoined wScriptDossiers).data) ∧
     (∀ s : String, ∀ c ∈ (htmlEscape s).data, c ≠ '<' ∧ c ≠ '>')) :=
  ⟨by decide, by decide, by decide,
    c3_html_escaping wScriptDossiers "demo" [wScriptEntry] wScriptEntry
      (by decide) (by decide) (by decide)⟩

/-! ### C4 and C5: the `main` run -/

/-- Rendering a prefix of documents that all convert successfully just
accumulates their output files. -/
theorem renderAllGo_ok (conv : Conv) (builtAt : String) :
    ∀ (pre rest : List (String × DocEntry)) (acc : List (String × String)),
      (∀ q ∈ pre, (conv (pandocCmd q.2 q.1 builtAt)).1 = 0) →
      renderAllGo conv builtAt (pre ++ rest) acc
        = renderAllGo conv builtAt rest
            ((pre.map (fun q => (outFileFor q.1 q.2.entry.slug,
              (conv (pandocCmd q.2 q.1 builtAt)).2.1))).reverse ++ acc) := by
  intro pre
  induction pre with
  | nil => intro rest acc h; simp
  | cons q qs ih =>
    intro rest acc h
    obtain ⟨d0, e0⟩ := q
    have hq : (conv (pandocCmd e0 d0 builtAt)).1 = 0 := h (d0, e0) (by simp)
    have hqs : ∀ x ∈ qs, (conv (pandocCmd x.2 x.1 builtAt)).1 = 0 :=
      fun x hx => h x (by simp [hx])
    have hrd : render_doc conv e0 d0 builtAt
        = Except.ok (outFileFor d0 e0.entry.slug, (conv (pandocCmd e0 d0 builtAt)).2.1) := by
      unfold render_doc
      rw [if_neg (by simp [hq])]
    show renderAllGo conv builtAt ((d0, e0) :: (qs ++ rest)) acc = _
    rw [show renderAllGo conv builtAt ((d0, e0) :: (qs ++ rest)) acc
        = (match render_doc conv e0 d0 builtAt with
           | Except.error msg => (acc.reverse, some msg)
           | Except.ok w => renderAllGo conv builtAt (qs ++ rest) (w :: acc)) from rfl,
      hrd]
    show renderAllGo conv builtAt (qs ++ rest)
        ((outFileFor d0 e0.entry.slug, (conv (pandocCmd e0 d0 builtAt)).2.1) :: acc) = _
    rw [ih rest _ hqs]
    simp [List.append_assoc]

/-- The first failing document aborts the loop with the FAIL line and
no further writes. -/
theorem renderAllGo_fail (conv : Conv) (builtAt : String) (d : String) (e : DocEntry)
    (rest : List (String × DocEntry)) (acc : List (String × String))
    (h : (conv (pandocCmd e d builtAt)).1 ≠ 0) :
    renderAllGo conv builtAt ((d, e) :: rest) acc
      = (acc.reverse, some ("FAIL " ++ e.entry.path ++ ": "
          ++ pyStrip (conv (pandocCmd e d builtAt)).2.2)) := by
  have hrd : render_doc conv e d builtAt
      = Except.error ("FAIL " ++ e.entry.path ++ ": "
          ++ pyStrip (conv (pandocCmd e d builtAt)).2.2) := by
    unfold render_doc
    rw [if_pos h]
  rw [show renderAllGo conv builtAt ((d, e) :: rest) acc
      = (match render_doc conv e d builtAt with
         | Except.error msg => (acc.reverse, some msg)
         | Except.ok w => renderAllGo conv builtAt rest (w :: acc)) from rfl,
    hrd]

/-- **C4**: when the converter exits non-zero on some document (all
documents before it in processing order converting fine), the whole
run ends with exit status 1, reports `FAIL <path>: <stripped stderr>`
on standard error, writes no output file for the failing document, and
renders nothing after it: the writes are exactly those of the
preceding documents (and no index file is written). -/
theorem c4_render_failure (tree : List (String × List MdFile)) (conv : Conv)
    (indexTemplate builtAt : String) (pre post : List (String × DocEntry))
    (d : String) (e : DocEntry)
    (hne : find_docs tree ≠ [])
    (hsplit : processList (assign_doc_ids (find_docs tree)) = pre ++ (d, e) :: post)
    (hok : ∀ q ∈ pre, (conv (pandocCmd q.2 q.1 builtAt)).1 = 0)
    (hfail : (conv (pandocCmd e d builtAt)).1 ≠ 0) :
    mainRun true true tree conv indexTemplate builtAt
      = { exitCode := 1,
          stderrLines := ["FAIL " ++ e.entry.path ++ ": "
            ++ pyStrip (conv (pandocCmd e d builtAt)).2.2],
          cleaned := true,
          writes := pre.map (fun q => (outFileFor q.1 q.2.entry.slug,
            (conv (pandocCmd q.2 q.1 builtAt)).2.1)) } := by
  have hempty : (find_docs tree).isEmpty = false := by
    cases hfd : find_docs tree with
    | nil => exact absurd hfd hne
    | cons a l => rfl
  show (if (find_docs tree).isEmpty = true then _ else _) = _
  rw [hempty]
  simp only [Bool.false_eq_true, if_false]
  rw [hsplit, renderAllGo_ok conv builtAt pre ((d, e) :: post) [] hok,
    renderAllGo_fail conv builtAt d e post _ hfail]
  simp

/-- **C5**: if pandoc is missing, or the render template is missing, or
discovery finds no documents at all, the run exits with status 1,
prints a message to standard error, performs no cleanup and writes no
output file. -/
theorem c5_preconditions (pandocFound templateExists : Bool)
    (tree : List (String × List MdFile)) (conv : Conv) (indexTemplate builtAt : String)
    (h : pandocFound = false ∨ templateExists = false ∨ find_docs tree = []) :
    (mainRun pandocFound templateExists tree conv indexTemplate builtAt).exitCode = 1 ∧
    (mainRun pandocFound templateExists tree conv indexTemplate builtAt).cleaned = false ∧
    (mainRun pandocFound templateExists tree conv indexTemplate builtAt).writes = [] ∧
    (mainRun pandocFound templateExists tree conv indexTemplate builtAt).stderrLines ≠ [] := by
  rcases h with h | h | h
  · subst h
    exact ⟨rfl, rfl, rfl, by simp [mainRun]⟩
  · subst h
    cases pandocFound with
    | false => exact ⟨rfl, rfl, rfl, by simp [mainRun]⟩
    | true => exact ⟨rfl, rfl, rfl, by simp [mainRun]⟩
  · cases pandocFound with
    | false => exact ⟨rfl, rfl, rfl, by simp [mainRun]⟩
    | true =>
      cases templateExists with
      | false => exact ⟨rfl, rfl, rfl, by simp [mainRun]⟩
      | true =>
        have hm : mainRun true true tree conv indexTemplate builtAt
            = { exitCode := 1, stderrLines := ["No docs found in dossiers/*/docs/."],
                cleaned := false, writes := [] } := by
          unfold mainRun
          rw [h]
          rfl
        rw [hm]
        exact ⟨rfl, rfl, rfl, by simp⟩

theorem c4_render_failure_witness :
    (find_docs wTree ≠ []) ∧
    (processList (assign_doc_ids (find_docs wTree)) = [] ++ ("demo", wEntryR) :: []) ∧
    (∀ q ∈ ([] : List (String × DocEntry)), (wFailConv (pandocCmd q.2 q.1 "T")).1 = 0) ∧
    ((wFailConv (pandocCmd wEntryR "demo" "T")).1 ≠ 0) ∧
    mainRun true true wTree wFailConv "TPL" "T"
      = { exitCode := 1,
          stderrLines := ["FAIL " ++ wEntryR.entry.path ++ ": "
            ++ pyStrip (wFailConv (pandocCmd wEntryR "demo" "T")).2.2],
          cleaned := true,
          writes := ([] : List (String × DocEntry)).map
            (fun q => (outFileFor q.1 q.2.entry.slug,
              (wFailConv (pandocCmd q.2 q.1 "T")).2.1)) } :=
  ⟨by decide, by decide, by decide, by decide,
    c4_render_failure wTree wFailConv "TPL" "T" [] [] "demo" wEntryR
      (by decide) (by decide) (by decide) (by decide)⟩

theorem c5_preconditions_witness :
    (true = false ∨ true = false ∨ find_docs ([] : List (String × List MdFile)) = []) ∧
    ((mainRun true true [] wOkConv "TPL" "T").exitCode = 1 ∧
     (mainRun true true [] wOkConv "TPL" "T").cleaned = false ∧
     (mainRun true true [] wOkConv "TPL" "T").writes = [] ∧
     (mainRun true true [] wOkConv "TPL" "T").stderrLines ≠ []) :=
  ⟨Or.inr (Or.inr (by decide)),
    c5_preconditions true true [] wOkConv "TPL" "T" (Or.inr (Or.inr (by decide)))⟩

/-! ### C9: determinism of the pipeline

The only order the file system is free to choose is the enumeration
order of directories and files; `find_docs` sorts both.  A tree is
normalized by sorting each dossier's markdown files; two runs whose
normalized trees are permutations of each other (same dossiers, same
files, any enumeration order) produce identical results. -/

theorem find_docs_eq_norm (t : List (String × List MdFile)) :
    find_docs t = ((List.insertionSort globLE (normTree t)).map entriesOf).filter
      (fun p => !p.2.isEmpty) := by
  unfold find_docs normTree
  have h := isort_map_keyRel strLtB
    (fun p : String × List MdFile => p.1 ++ "/docs")
    (fun p : String × List MdFile => p.1 ++ "/docs")
    (fun p : String × List MdFile => (p.1, List.insertionSort fileLE (p.2.filter isMd)))
    (fun a => rfl) t
  rw [← h, List.map_map]
  rfl

theorem normTree_names (t : List (String × List MdFile)) :
    (normTree t).map Prod.fst = t.map Prod.fst := by
  unfold normTree
  rw [List.map_map]
  rfl

theorem names_key_nodup {t : List (String × List MdFile)}
    (h : (t.map Prod.fst).Nodup) :
    ((normTree t).map (fun p : String × List MdFile => p.1 ++ "/docs")).Nodup := by
  have he : (normTree t).map (fun p : String × List MdFile => p.1 ++ "/docs")
      = ((normTree t).map Prod.fst).map (fun s => s ++ "/docs") := by
    rw [List.map_map]
    rfl
  rw [he, normTree_names t]
  apply List.Nodup.map_on ?_ h
  intro x _ y _ hxy
  have hd := congrArg String.data hxy
  rw [String.data_append, String.data_append] at hd
  exact String.ext (List.append_cancel_right hd)

theorem find_docs_perm_eq {t1 t2 : List (String × List MdFile)}
    (hperm : (normTree t1).Perm (normTree t2))
    (hnd1 : (t1.map Prod.fst).Nodup) :
    find_docs t1 = find_docs t2 := by
  rw [find_docs_eq_norm, find_docs_eq_norm]
  have hsorteq : List.insertionSort globLE (normTree t1)
      = List.insertionSort globLE (normTree t2) := by
    apply eq_of_perm_of_sorted_keyRel strLtB_slo
      (fun p : String × List MdFile => p.1 ++ "/docs")
    · exact (List.perm_insertionSort _ _).trans
        (hperm.trans (List.perm_insertionSort _ _).symm)
    · exact sorted_isort_keyRel strLtB_slo _ _
    · exact sorted_isort_keyRel strLtB_slo _ _
    · exact ((List.perm_insertionSort globLE (normTree t1)).map
        (fun p : String × List MdFile => p.1 ++ "/docs")).nodup_iff.mpr (names_key_nodup hnd1)
  rw [hsorteq]

/-- **C9**: two runs on file trees holding the same dossiers and files
(in whatever enumeration order the file system yields them), with the
same environment, converter, index template, and fixed build
timestamp, produce identical run results: the same exit code, the same
error output, and byte-identical generated files in the same order. -/
theorem c9_determinism (pandocFound templateExists : Bool)
    (t1 t2 : List (String × List MdFile)) (conv : Conv) (indexTemplate builtAt : String)
    (hperm : (normTree t1).Perm (normTree t2))
    (hnd1 : (t1.map Prod.fst).Nodup) :
    mainRun pandocFound templateExists t1 conv indexTemplate builtAt
      = mainRun pandocFound templateExists t2 conv indexTemplate builtAt := by
  have hfd := find_docs_perm_eq hperm hnd1
  unfold mainRun
  rw [hfd]

theorem c9_determinism_witness :
    (normTree wTree1).Perm (normTree wTree2) ∧
    (wTree1.map Prod.fst).Nodup ∧
    mainRun true true wTree1 wOkConv "TPL" "T"
      = mainRun true true wTree2 wOkConv "TPL" "T" :=
  ⟨by decide, by decide,
    c9_determinism true true wTree1 wTree2 wOkConv "TPL" "T" (by decide) (by decide)⟩

/-! ### C10: collections with no markdown file are dropped by discovery -/

theorem find_docs_names (t : List (String × List MdFile)) :
    ∀ p ∈ find_docs t, p.1 ∈ t.map Prod.fst := by
  intro p hp
  unfold find_docs at hp
  have hp2 := List.mem_of_mem_filter hp
  obtain ⟨q, hq, rfl⟩ := List.mem_map.mp hp2
  exact List.mem_map.mpr ⟨q, (List.mem_insertionSort _).mp hq, rfl⟩

theorem assign_doc_ids_names (ds : List (String × List Entry)) :
    ∀ p ∈ assign_doc_ids ds, p.1 ∈ ds.map Prod.fst := by
  intro p hp
  obtain ⟨q, hq, rfl⟩ := List.mem_map.mp hp
  exact List.mem_map.mpr ⟨q, hq, rfl⟩

/-- **C10**: a dossier directory whose `docs` folder holds no markdown
file is dropped by discovery: `find_docs` returns exactly what it
returns with that directory absent, so the dossier is never assigned a
code or IDs, contributes nothing to any count, and produces no drawer
in the generated index; moreover no discovered collection bears its
name. -/
theorem c10_empty_collection (pre post : List (String × List MdFile))
    (name : String) (fs : List MdFile)
    (hmd : fs.filter isMd = [])
    (hnd : ((pre ++ (name, fs) :: post).map Prod.fst).Nodup) :
    find_docs (pre ++ (name, fs) :: post) = find_docs (pre ++ post) ∧
    (∀ p ∈ find_docs (pre ++ (name, fs) :: post), p.1 ≠ name) ∧
    (∀ p ∈ assign_doc_ids (find_docs (pre ++ (name, fs) :: post)), p.1 ≠ name) ∧
    drawersJoined (assign_doc_ids (find_docs (pre ++ (name, fs) :: post)))
      = drawersJoined (assign_doc_ids (find_docs (pre ++ post))) := by
  have hnormsplit : normTree (pre ++ (name, fs) :: post)
      = normTree pre ++ (name, []) :: normTree post := by
    unfold normTree
    rw [List.map_append, List.map_cons]
    have : List.insertionSort fileLE (fs.filter isMd) = [] := by rw [hmd]; rfl
    rw [this]
  have hnormapp : normTree (pre ++ post) = normTree pre ++ normTree post := by
    unfold normTree
    rw [List.map_append]
  have hperm : (normTree (pre ++ (name, fs) :: post)).Perm
      ((name, ([] : List MdFile)) :: normTree (pre ++ post)) := by
    rw [hnormsplit, hnormapp]
    exact List.perm_middle
  -- names of the shorter tree are still duplicate-free, and `name` is not among them
  have hnames : (pre ++ (name, fs) :: post).map Prod.fst
      = pre.map Prod.fst ++ name :: post.map Prod.fst := by
    rw [List.map_append, List.map_cons]
  have hnotmem : name ∉ (pre ++ post).map Prod.fst := by
    rw [hnames] at hnd
    have h1 := List.nodup_middle.mp hnd
    rw [List.map_append]
    exact (List.nodup_cons.mp h1).1
  have hfd : find_docs (pre ++ (name, fs) :: post) = find_docs (pre ++ post) := by
    rw [find_docs_eq_norm, find_docs_eq_norm]
    -- sorted-and-filtered lists on both sides: equal by perm + sorted + distinct keys
    apply eq_of_perm_of_sorted_keyRel strLtB_slo
      (fun q : String × List Entry => q.1 ++ "/docs")
    · -- permutation, going through the unsorted normalized trees
      have p1 := ((List.perm_insertionSort globLE
        (normTree (pre ++ (name, fs) :: post))).map entriesOf).filter
        (fun p : String × List Entry => !p.2.isEmpty)
      have p2 := (hperm.map entriesOf).filter
        (fun p : String × List Entry => !p.2.isEmpty)
      have p3 : (((name, ([] : List MdFile)) :: normTree (pre ++ post)).map
            entriesOf).filter (fun p : String × List Entry => !p.2.isEmpty)
          = ((normTree (pre ++ post)).map entriesOf).filter
            (fun p : String × List Entry => !p.2.isEmpty) := by
        rw [List.map_cons]
        rw [show entriesOf (name, ([] : List MdFile)) = (name, ([] : List Entry)) from rfl]
        exact List.filter_cons_of_neg (by simp)
      have p4 := (((List.perm_insertionSort globLE (normTree (pre ++ post))).map
        entriesOf).filter (fun p : String × List Entry => !p.2.isEmpty)).symm
      rw [p3] at p2
      exact (p1.trans p2).trans p4
    · exact List.Pairwise.sublist (List.filter_sublist _)
        (List.pairwise_map.mpr (sorted_isort_keyRel strLtB_slo _ _))
    · exact List.Pairwise.sublist (List.filter_sublist _)
        (List.pairwise_map.mpr (sorted_isort_keyRel strLtB_slo _ _))
    · -- keys of the filtered sorted list are duplicate-free
      have h0 : (((List.insertionSort globLE (normTree (pre ++ (name, fs) :: post))).map
          entriesOf).map (fun q : String × List Entry => q.1 ++ "/docs")).Nodup := by
        rw [List.map_map]
        exact ((List.perm_insertionSort globLE _).map
          (fun p : String × List MdFile => p.1 ++ "/docs")).nodup_iff.mpr
          (names_key_nodup hnd)
      exact List.Nodup.sublist
        ((List.filter_sublist _).map (fun q : String × List Entry => q.1 ++ "/docs")) h0
  refine ⟨hfd, ?_, ?_, by rw [hfd]⟩
  · intro p hp
    rw [hfd] at hp
    intro hcontra
    exact hnotmem (hcontra ▸ find_docs_names _ p hp)
  · intro p hp
    rw [hfd] at hp
    intro hcontra
    have h1 := assign_doc_ids_names _ p hp
    have h2 : p.1 ∈ (pre ++ post).map Prod.fst := by
      obtain ⟨q, hq, hqe⟩ := List.mem_map.mp h1
      exact hqe ▸ find_docs_names _ q hq
    exact hnotmem (hcontra ▸ h2)

theorem c10_empty_collection_witness :
    (wEmptyFs.filter isMd = []) ∧
    ((([] ++ ("empty", wEmptyFs) :: wFullPost) :
        List (String × List MdFile)).map Prod.fst).Nodup ∧
    (find_docs ([] ++ ("empty", wEmptyFs) :: wFullPost) = find_docs ([] ++ wFullPost) ∧
     (∀ p ∈ find_docs ([] ++ ("empty", wEmptyFs) :: wFullPost), p.1 ≠ "empty") ∧
     (∀ p ∈ assign_doc_ids (find_docs ([] ++ ("empty", wEmptyFs) :: wFullPost)),
        p.1 ≠ "empty") ∧
     drawersJoined (assign_doc_ids (find_docs ([] ++ ("empty", wEmptyFs) :: wFullPost)))
       = drawersJoined (assign_doc_ids (find_docs ([] ++ wFullPost)))) :=
  ⟨by decide, by decide,
    c10_empty_collection [] wFullPost "empty" wEmptyFs (by decide) (by decide)⟩

end Cabinet
